import Mathlib

/-!
# Verification of `PointQuadTree.cpp` (ShumWengSang/Algos-Test)

Shallow embedding of the point quadtree in `src/Algos-Test/PointQuadTree.cpp`.
Coordinates are modelled as exact rationals.  The geometric primitives
(`Vector2`, `Rect_AABB` with `contains` / `Intersects_AABB`), the entry type
`Data_Node` and the constant `QT_NODE_MAX_CAPACITY` are declared in the header
`PointQuadTree.hpp`, which is not part of the repository snapshot; they are
modelled from the specification where noted.
-/

/-- Modelled from the spec: 2D vector (`Vector2` from the missing header
`PointQuadTree.hpp`) with `x` and `y` coordinates. -/
structure Vector2 where
  x : ℚ
  y : ℚ
deriving DecidableEq, Repr

/-- Modelled from the spec: axis-aligned bounding box (`Rect_AABB` from the
missing header), given by a center point and half-extents along each axis. -/
structure Rect_AABB where
  centerPoint : Vector2
  halfDimension : Vector2
deriving DecidableEq, Repr

/-- Modelled from the spec: `Rect_AABB::contains` / `Rect_AABB::ContainsPoint`
(two spellings used by the `.cpp`, declared in the missing header): the point
lies within `[center - half, center + half]` on both axes, inclusive on both
boundaries (spec section 3). -/
def Rect_AABB.contains (r : Rect_AABB) (p : Vector2) : Prop :=
  r.centerPoint.x - r.halfDimension.x ≤ p.x ∧
  p.x ≤ r.centerPoint.x + r.halfDimension.x ∧
  r.centerPoint.y - r.halfDimension.y ≤ p.y ∧
  p.y ≤ r.centerPoint.y + r.halfDimension.y

instance (r : Rect_AABB) (p : Vector2) : Decidable (r.contains p) := by
  unfold Rect_AABB.contains
  infer_instance

/-- Modelled from the spec: `Rect_AABB::Intersects_AABB` (declared in the
missing header): the two boxes overlap on both axes (inclusive: touching
boxes intersect, consistently with the inclusive `contains`). -/
def Rect_AABB.Intersects_AABB (a b : Rect_AABB) : Prop :=
  a.centerPoint.x - a.halfDimension.x ≤ b.centerPoint.x + b.halfDimension.x ∧
  b.centerPoint.x - b.halfDimension.x ≤ a.centerPoint.x + a.halfDimension.x ∧
  a.centerPoint.y - a.halfDimension.y ≤ b.centerPoint.y + b.halfDimension.y ∧
  b.centerPoint.y - b.halfDimension.y ≤ a.centerPoint.y + a.halfDimension.y

instance (a b : Rect_AABB) : Decidable (a.Intersects_AABB b) := by
  unfold Rect_AABB.Intersects_AABB
  infer_instance

/-- Modelled from the spec: `Data_Node<T>` (missing header): a payload of
generic type `T` paired with its 2D coordinate. -/
structure Data_Node (T : Type) where
  point : Vector2
  data : T
deriving DecidableEq, Repr

/-- Modelled from the spec: `QT_NODE_MAX_CAPACITY` is defined in the missing
header; the spec calls it a tunable constant and its concrete scenario
(section 8) fixes `MAX_CAPACITY = 4`. -/
def QT_NODE_MAX_CAPACITY : Nat := 4

/-- The node type of `PointQuadTree.cpp`.  In C++ one class holds `boundaries`,
the bucket `points`, and four child pointers that are all null (leaf) or all
set (internal) — they are created together by `Subdivide` and the code tests a
single representative pointer for null.  We model the two pointer states as two
constructors. -/
inductive PointQuadTree (T : Type) where
  | leaf (boundaries : Rect_AABB) (points : List (Data_Node T))
  | node (boundaries : Rect_AABB) (points : List (Data_Node T))
      (northWest northEast southEast southWest : PointQuadTree T)
deriving DecidableEq, Repr

/-- The `boundaries` member of a node. -/
def PointQuadTree.boundaries {T : Type} : PointQuadTree T → Rect_AABB
  | .leaf b _ => b
  | .node b _ _ _ _ _ => b

/-- The `points` member (this node's own bucket). -/
def PointQuadTree.points {T : Type} : PointQuadTree T → List (Data_Node T)
  | .leaf _ ps => ps
  | .node _ ps _ _ _ _ => ps

/-- Region of the south-west child created by `Subdivide`:
`children_size = {boundaries.halfDimension.x, boundaries.halfDimension.y}`
(the source does NOT halve the parent's half-extents), center
`{centerPoint.x - children_size.x, centerPoint.y - children_size.y}`. -/
def childSW (b : Rect_AABB) : Rect_AABB :=
  { centerPoint := { x := b.centerPoint.x - b.halfDimension.x,
                     y := b.centerPoint.y - b.halfDimension.y },
    halfDimension := { x := b.halfDimension.x, y := b.halfDimension.y } }

/-- Region of the south-east child created by `Subdivide` (the source writes
`centerPoint.y - children_size`, an evident typo for `children_size.y`). -/
def childSE (b : Rect_AABB) : Rect_AABB :=
  { centerPoint := { x := b.centerPoint.x + b.halfDimension.x,
                     y := b.centerPoint.y - b.halfDimension.y },
    halfDimension := { x := b.halfDimension.x, y := b.halfDimension.y } }

/-- Region of the north-west child created by `Subdivide` (same `.x`/`.y`
member-access typos in the source, intent unambiguous from the `childSW`
line written in full). -/
def childNW (b : Rect_AABB) : Rect_AABB :=
  { centerPoint := { x := b.centerPoint.x - b.halfDimension.x,
                     y := b.centerPoint.y + b.halfDimension.y },
    halfDimension := { x := b.halfDimension.x, y := b.halfDimension.y } }

/-- Region of the north-east child created by `Subdivide` (the source writes
`Rect_AABB(child_center_children_size)`, an evident typo for
`Rect_AABB(child_center, children_size)`). -/
def childNE (b : Rect_AABB) : Rect_AABB :=
  { centerPoint := { x := b.centerPoint.x + b.halfDimension.x,
                     y := b.centerPoint.y + b.halfDimension.y },
    halfDimension := { x := b.halfDimension.x, y := b.halfDimension.y } }

/-- `PointQuadTree<T>::Subdivide`: installs four fresh leaf children (each
constructed with an empty bucket, per the constructor) on a node, leaving the
bucket in place. -/
def PointQuadTree.Subdivide {T : Type} (b : Rect_AABB) (ps : List (Data_Node T)) :
    PointQuadTree T :=
  .node b ps (.leaf (childNW b) []) (.leaf (childNE b) [])
    (.leaf (childSE b) []) (.leaf (childSW b) [])

/-- `Insert` called on a freshly subdivided child, i.e. on a leaf with an empty
bucket: the bucket size `0` is below `QT_NODE_MAX_CAPACITY`, so the call
reduces to the containment test followed by a push.  (Used to express the
recursive child calls made right after `Subdivide`; the unfolding is proved
faithful in `Insert_fresh_leaf` below.) -/
def freshInsert {T : Type} (r : Rect_AABB) (d : Data_Node T) :
    PointQuadTree T × Bool :=
  if r.contains d.point then (.leaf r [d], true) else (.leaf r [], false)

/-- `PointQuadTree<T>::Insert(Data_Node<T> data)`.  The C++ mutates the node
and returns `bool`; we return the node state after the call paired with the
returned boolean.  Faithful to the source's order of checks:
containment test first, then the bucket-size test (with no leaf/internal
guard), then `Subdivide` if the children are null, then the four child calls
in the order northWest, northEast, southEast, southWest, keeping the child
state each call returns. -/
def PointQuadTree.Insert {T : Type} : PointQuadTree T → Data_Node T → PointQuadTree T × Bool
  | .leaf b ps, d =>
    if ¬ b.contains d.point then (.leaf b ps, false)
    else if ps.length < QT_NODE_MAX_CAPACITY then (.leaf b (ps ++ [d]), true)
    else
      let rNW := freshInsert (childNW b) d
      if rNW.2 then
        (.node b ps rNW.1 (.leaf (childNE b) []) (.leaf (childSE b) [])
          (.leaf (childSW b) []), true)
      else
        let rNE := freshInsert (childNE b) d
        if rNE.2 then
          (.node b ps rNW.1 rNE.1 (.leaf (childSE b) [])
            (.leaf (childSW b) []), true)
        else
          let rSE := freshInsert (childSE b) d
          if rSE.2 then
            (.node b ps rNW.1 rNE.1 rSE.1 (.leaf (childSW b) []), true)
          else
            let rSW := freshInsert (childSW b) d
            if rSW.2 then (.node b ps rNW.1 rNE.1 rSE.1 rSW.1, true)
            else (.node b ps rNW.1 rNE.1 rSE.1 rSW.1, false)
  | .node b ps nw ne se sw, d =>
    if ¬ b.contains d.point then (.node b ps nw ne se sw, false)
    else if ps.length < QT_NODE_MAX_CAPACITY then
      (.node b (ps ++ [d]) nw ne se sw, true)
    else
      let rNW := nw.Insert d
      if rNW.2 then (.node b ps rNW.1 ne se sw, true)
      else
        let rNE := ne.Insert d
        if rNE.2 then (.node b ps rNW.1 rNE.1 se sw, true)
        else
          let rSE := se.Insert d
          if rSE.2 then (.node b ps rNW.1 rNE.1 rSE.1 sw, true)
          else
            let rSW := sw.Insert d
            if rSW.2 then (.node b ps rNW.1 rNE.1 rSE.1 rSW.1, true)
            else (.node b ps rNW.1 rNE.1 rSE.1 rSW.1, false)

/-- `PointQuadTree<T>::QueryRange_private_recursive(range, result)`: prune
when the node's boundary does not intersect `range`; otherwise append the
bucket entries contained in `range` to the result, and if the node is
internal recurse into the children in the source's order northEast,
northWest, southEast, southWest.  (The source's `results` vs `result` and
`return results;` in a `void` function are evident typos for the reference
parameter and a bare `return`.) -/
def PointQuadTree.QueryRange_private_recursive {T : Type} :
    PointQuadTree T → Rect_AABB → List (Data_Node T) → List (Data_Node T)
  | .leaf b ps, range, result =>
    if ¬ b.Intersects_AABB range then result
    else result ++ ps.filter (fun p => decide (range.contains p.point))
  | .node b ps nw ne se sw, range, result =>
    if ¬ b.Intersects_AABB range then result
    else
      let r1 := result ++ ps.filter (fun p => decide (range.contains p.point))
      let r2 := ne.QueryRange_private_recursive range r1
      let r3 := nw.QueryRange_private_recursive range r2
      let r4 := se.QueryRange_private_recursive range r3
      sw.QueryRange_private_recursive range r4

/-- `PointQuadTree<T>::QueryRange(range)`: runs the recursion on a freshly
created empty vector and returns it. -/
def PointQuadTree.QueryRange {T : Type} (t : PointQuadTree T) (range : Rect_AABB) :
    List (Data_Node T) :=
  t.QueryRange_private_recursive range []

/-- State-threaded reading of `QueryRange_private_recursive`: the same
traversal, additionally returning the node state after the call (the C++
takes `this` and the result vector by reference; this version makes the
final tree state explicit so that absence of mutation is a provable
statement rather than a modelling artifact). -/
def PointQuadTree.QueryRange_state {T : Type} :
    PointQuadTree T → Rect_AABB → List (Data_Node T) →
      PointQuadTree T × List (Data_Node T)
  | .leaf b ps, range, result =>
    if ¬ b.Intersects_AABB range then (.leaf b ps, result)
    else (.leaf b ps,
      result ++ ps.filter (fun p => decide (range.contains p.point)))
  | .node b ps nw ne se sw, range, result =>
    if ¬ b.Intersects_AABB range then (.node b ps nw ne se sw, result)
    else
      let r1 := result ++ ps.filter (fun p => decide (range.contains p.point))
      let qNE := ne.QueryRange_state range r1
      let qNW := nw.QueryRange_state range qNE.2
      let qSE := se.QueryRange_state range qNW.2
      let qSW := sw.QueryRange_state range qSE.2
      (.node b ps qNW.1 qNE.1 qSE.1 qSW.1, qSW.2)

/-- Accumulator-free form of `QueryRange_private_recursive`: the entries it
appends for one subtree, in traversal order (bucket first, then children in
the source's query order northEast, northWest, southEast, southWest).
`QueryRange_private_eq` below proves the two forms agree. -/
def queryList {T : Type} : PointQuadTree T → Rect_AABB → List (Data_Node T)
  | .leaf b ps, range =>
    if ¬ b.Intersects_AABB range then []
    else ps.filter (fun p => decide (range.contains p.point))
  | .node b ps nw ne se sw, range =>
    if ¬ b.Intersects_AABB range then []
    else
      ps.filter (fun p => decide (range.contains p.point)) ++
        (queryList ne range ++ (queryList nw range ++
          (queryList se range ++ queryList sw range)))

/-- All entries stored in a subtree: this node's bucket followed by the
entries of the four children. -/
def entries {T : Type} : PointQuadTree T → List (Data_Node T)
  | .leaf _ ps => ps
  | .node _ ps nw ne se sw =>
    ps ++ (entries nw ++ (entries ne ++ (entries se ++ entries sw)))

/-- Region invariant (spec section 3): every entry stored anywhere in the
subtree rooted at a node lies inside that node's region, recursively at
every node. -/
def WF {T : Type} : PointQuadTree T → Prop
  | .leaf b ps => ∀ e ∈ ps, b.contains e.point
  | .node b ps nw ne se sw =>
    (∀ e ∈ ps, b.contains e.point) ∧
    (∀ e ∈ entries nw, b.contains e.point) ∧
    (∀ e ∈ entries ne, b.contains e.point) ∧
    (∀ e ∈ entries se, b.contains e.point) ∧
    (∀ e ∈ entries sw, b.contains e.point) ∧
    WF nw ∧ WF ne ∧ WF se ∧ WF sw

/-- Bucket invariant (spec section 3): a leaf's bucket has at most
`QT_NODE_MAX_CAPACITY` entries; an internal node's bucket holds exactly the
`QT_NODE_MAX_CAPACITY` entries accepted before its split; recursively at
every node. -/
def BucketInv {T : Type} : PointQuadTree T → Prop
  | .leaf _ ps => ps.length ≤ QT_NODE_MAX_CAPACITY
  | .node _ ps nw ne se sw =>
    ps.length = QT_NODE_MAX_CAPACITY ∧
    BucketInv nw ∧ BucketInv ne ∧ BucketInv se ∧ BucketInv sw

/-- Structural invariant: the four children of every internal node carry
exactly the regions `Subdivide` computes from the parent's region (true of
every tree the code builds, since children are only ever created by
`Subdivide`). -/
def GeomInv {T : Type} : PointQuadTree T → Prop
  | .leaf _ _ => True
  | .node b _ nw ne se sw =>
    nw.boundaries = childNW b ∧ ne.boundaries = childNE b ∧
    se.boundaries = childSE b ∧ sw.boundaries = childSW b ∧
    GeomInv nw ∧ GeomInv ne ∧ GeomInv se ∧ GeomInv sw

/-- Building a tree: construct the root on a region (leaf with empty bucket,
per the constructor) and fold `Insert` over a list of entries, keeping the
tree state each call returns. -/
def buildTree {T : Type} (R : Rect_AABB) (ds : List (Data_Node T)) :
    PointQuadTree T :=
  ds.foldl (fun t d => (t.Insert d).1) (.leaf R [])

/-- The concrete root region of the spec's section-8 scenario: centered at
the origin with half-extents `(10, 10)`. -/
def sampleRoot : Rect_AABB :=
  { centerPoint := { x := 0, y := 0 }, halfDimension := { x := 10, y := 10 } }

/-- Concrete diagonal sample entry `(n, n)` with a `Nat` payload, used as
witness input. -/
def dd (n : ℚ) : Data_Node Nat := { point := { x := n, y := n }, data := 7 }

/-- Concrete query region: center `(2, 2)`, half-extents `(2, 2)`. -/
def sampleQuery : Rect_AABB :=
  { centerPoint := { x := 2, y := 2 }, halfDimension := { x := 2, y := 2 } }

/-- Concrete degenerate query region: zero area, centered at `(1, 1)`. -/
def zeroQuery : Rect_AABB :=
  { centerPoint := { x := 1, y := 1 }, halfDimension := { x := 0, y := 0 } }

/-- Concrete query region completely disjoint from `sampleRoot`. -/
def farQuery : Rect_AABB :=
  { centerPoint := { x := 100, y := 100 }, halfDimension := { x := 1, y := 1 } }

/-- Concrete internal node in the state right after the spec's section-8
scenario split: full bucket, four freshly subdivided empty children. -/
def sampleInternal : PointQuadTree Nat :=
  .node sampleRoot [dd 1, dd 2, dd 3, dd 4] (.leaf (childNW sampleRoot) [])
    (.leaf (childNE sampleRoot) []) (.leaf (childSE sampleRoot) [])
    (.leaf (childSW sampleRoot) [])

/-! ## Basic lemmas -/

@[simp]
theorem boundaries_leaf {T : Type} (b : Rect_AABB) (ps : List (Data_Node T)) :
    (PointQuadTree.leaf b ps).boundaries = b := rfl

@[simp]
theorem boundaries_node {T : Type} (b : Rect_AABB) (ps : List (Data_Node T))
    (nw ne se sw : PointQuadTree T) :
    (PointQuadTree.node b ps nw ne se sw).boundaries = b := rfl

@[simp]
theorem points_leaf {T : Type} (b : Rect_AABB) (ps : List (Data_Node T)) :
    (PointQuadTree.leaf b ps).points = ps := rfl

@[simp]
theorem points_node {T : Type} (b : Rect_AABB) (ps : List (Data_Node T))
    (nw ne se sw : PointQuadTree T) :
    (PointQuadTree.node b ps nw ne se sw).points = ps := rfl

@[simp]
theorem entries_leaf {T : Type} (b : Rect_AABB) (ps : List (Data_Node T)) :
    entries (PointQuadTree.leaf b ps) = ps := rfl

@[simp]
theorem entries_node {T : Type} (b : Rect_AABB) (ps : List (Data_Node T))
    (nw ne se sw : PointQuadTree T) :
    entries (PointQuadTree.node b ps nw ne se sw) =
      ps ++ (entries nw ++ (entries ne ++ (entries se ++ entries sw))) := rfl

/-- The recursive calls `Insert` makes on the children right after
`Subdivide` really are the generic `Insert` on a fresh leaf: the unfolding
`freshInsert` used in the definition is faithful. -/
theorem Insert_fresh_leaf {T : Type} (r : Rect_AABB) (d : Data_Node T) :
    (PointQuadTree.leaf r []).Insert d = freshInsert r d := by
  by_cases h : r.contains d.point <;>
    simp [PointQuadTree.Insert, freshInsert, h, QT_NODE_MAX_CAPACITY]

/-- The full-leaf case of `Insert` is exactly: `Subdivide`, then run `Insert`
on the resulting internal node (as the C++ control flow does). -/
theorem Insert_subdivide {T : Type} (b : Rect_AABB) (ps : List (Data_Node T))
    (d : Data_Node T) (hfull : ¬ ps.length < QT_NODE_MAX_CAPACITY)
    (h : b.contains d.point) :
    (PointQuadTree.leaf b ps).Insert d =
      (PointQuadTree.Subdivide b ps).Insert d := by
  have hpos : 0 < QT_NODE_MAX_CAPACITY := by norm_num [QT_NODE_MAX_CAPACITY]
  by_cases hnw : (childNW b).contains d.point
  · simp [PointQuadTree.Insert, PointQuadTree.Subdivide, freshInsert,
      hpos, h, hfull, hnw]
  · by_cases hne : (childNE b).contains d.point
    · simp [PointQuadTree.Insert, PointQuadTree.Subdivide, freshInsert,
        hpos, h, hfull, hnw, hne]
    · by_cases hse : (childSE b).contains d.point
      · simp [PointQuadTree.Insert, PointQuadTree.Subdivide, freshInsert,
          hpos, h, hfull, hnw, hne, hse]
      · by_cases hsw : (childSW b).contains d.point
        · simp [PointQuadTree.Insert, PointQuadTree.Subdivide, freshInsert,
            hpos, h, hfull, hnw, hne, hse, hsw]
        · simp [PointQuadTree.Insert, PointQuadTree.Subdivide, freshInsert,
            hpos, h, hfull, hnw, hne, hse, hsw]

/-- Step 1 of the insertion contract: a point outside this node's region is
rejected with no state change. -/
theorem Insert_not_contains {T : Type} (t : PointQuadTree T) (d : Data_Node T)
    (h : ¬ t.boundaries.contains d.point) : t.Insert d = (t, false) := by
  cases t <;> simp_all [PointQuadTree.Insert]

/-- `Insert` never changes the node's region. -/
theorem boundaries_Insert {T : Type} (t : PointQuadTree T) (d : Data_Node T) :
    (t.Insert d).1.boundaries = t.boundaries := by
  cases t with
  | leaf b ps =>
    simp only [PointQuadTree.Insert]
    split
    · rfl
    · split
      · rfl
      · split
        · rfl
        · split
          · rfl
          · split
            · rfl
            · split <;> rfl
  | node b ps nw ne se sw =>
    simp only [PointQuadTree.Insert]
    split
    · rfl
    · split
      · rfl
      · split
        · rfl
        · split
          · rfl
          · split
            · rfl
            · split <;> rfl

/-! ## Geometry of the subdivided regions -/

/-- A region that contains some point has nonnegative half-extents. -/
theorem half_nonneg_of_contains {b : Rect_AABB} {p : Vector2}
    (h : b.contains p) : 0 ≤ b.halfDimension.x ∧ 0 ≤ b.halfDimension.y := by
  obtain ⟨h1, h2, h3, h4⟩ := h
  constructor <;> linarith

/-- Coverage: every point of the parent's region lies in at least one of the
four child regions created by `Subdivide` (they even cover a strict superset
of the parent, since the source does not halve the extents). -/
theorem children_cover {b : Rect_AABB} {p : Vector2} (h : b.contains p) :
    (childNW b).contains p ∨ (childNE b).contains p ∨
      (childSE b).contains p ∨ (childSW b).contains p := by
  obtain ⟨h1, h2, h3, h4⟩ := h
  rcases le_total p.x b.centerPoint.x with hx | hx <;>
    rcases le_total p.y b.centerPoint.y with hy | hy
  · refine Or.inr (Or.inr (Or.inr ?_))
    exact ⟨by simp [childSW]; linarith, by simp [childSW]; linarith,
      by simp [childSW]; linarith, by simp [childSW]; linarith⟩
  · refine Or.inl ?_
    exact ⟨by simp [childNW]; linarith, by simp [childNW]; linarith,
      by simp [childNW]; linarith, by simp [childNW]; linarith⟩
  · refine Or.inr (Or.inr (Or.inl ?_))
    exact ⟨by simp [childSE]; linarith, by simp [childSE]; linarith,
      by simp [childSE]; linarith, by simp [childSE]; linarith⟩
  · refine Or.inr (Or.inl ?_)
    exact ⟨by simp [childNE]; linarith, by simp [childNE]; linarith,
      by simp [childNE]; linarith, by simp [childNE]; linarith⟩

/-- Two regions sharing a point intersect. -/
theorem intersects_of_mem_mem {a c : Rect_AABB} {p : Vector2}
    (ha : a.contains p) (hc : c.contains p) : a.Intersects_AABB c := by
  obtain ⟨a1, a2, a3, a4⟩ := ha
  obtain ⟨c1, c2, c3, c4⟩ := hc
  exact ⟨by linarith, by linarith, by linarith, by linarith⟩

/-- A region with nonnegative half-extents intersects itself. -/
theorem self_intersects {b : Rect_AABB} (hx : 0 ≤ b.halfDimension.x)
    (hy : 0 ≤ b.halfDimension.y) : b.Intersects_AABB b :=
  ⟨by linarith, by linarith, by linarith, by linarith⟩

/-- Each subdivided child region intersects the parent region (they share a
corner quadrant). -/
theorem children_intersect_parent {b : Rect_AABB} (hx : 0 ≤ b.halfDimension.x)
    (hy : 0 ≤ b.halfDimension.y) :
    (childNW b).Intersects_AABB b ∧ (childNE b).Intersects_AABB b ∧
      (childSE b).Intersects_AABB b ∧ (childSW b).Intersects_AABB b := by
  refine ⟨⟨?_, ?_, ?_, ?_⟩, ⟨?_, ?_, ?_, ?_⟩, ⟨?_, ?_, ?_, ?_⟩,
    ⟨?_, ?_, ?_, ?_⟩⟩ <;> simp [childNW, childNE, childSE, childSW] <;> linarith

/-! ## Insert: success, failure, effect on entries -/

/-- `Insert` succeeds whenever the point lies in the node's region (on any
tree satisfying the geometric invariant): the final fallback `return false`
is unreachable, because the children cover the parent. -/
theorem Insert_true_of_contains {T : Type} (t : PointQuadTree T)
    (d : Data_Node T) (hg : GeomInv t) (h : t.boundaries.contains d.point) :
    (t.Insert d).2 = true := by
  induction t with
  | leaf b ps =>
    simp only [boundaries_leaf] at h
    by_cases hlen : ps.length < QT_NODE_MAX_CAPACITY
    · simp [PointQuadTree.Insert, h, hlen]
    · have hcov := children_cover h
      by_cases hnw : (childNW b).contains d.point
      · simp [PointQuadTree.Insert, h, hlen, freshInsert, hnw]
      · by_cases hne : (childNE b).contains d.point
        · simp [PointQuadTree.Insert, h, hlen, freshInsert, hnw, hne]
        · by_cases hse : (childSE b).contains d.point
          · simp [PointQuadTree.Insert, h, hlen, freshInsert, hnw, hne, hse]
          · by_cases hsw : (childSW b).contains d.point
            · simp [PointQuadTree.Insert, h, hlen, freshInsert,
                hnw, hne, hse, hsw]
            · rcases hcov with hc | hc | hc | hc <;> simp_all
  | node b ps nw ne se sw ihnw ihne ihse ihsw =>
    simp only [boundaries_node] at h
    obtain ⟨gnw, gne, gse, gsw, hgnw, hgne, hgse, hgsw⟩ := hg
    by_cases hlen : ps.length < QT_NODE_MAX_CAPACITY
    · simp [PointQuadTree.Insert, h, hlen]
    · have hcov := children_cover h
      by_cases hnw : (childNW b).contains d.point
      · have := ihnw hgnw (by rw [gnw]; exact hnw)
        simp [PointQuadTree.Insert, h, hlen, this]
      · have enw : nw.Insert d = (nw, false) :=
          Insert_not_contains nw d (by rw [gnw]; exact hnw)
        by_cases hne : (childNE b).contains d.point
        · have := ihne hgne (by rw [gne]; exact hne)
          simp [PointQuadTree.Insert, h, hlen, enw, this]
        · have ene : ne.Insert d = (ne, false) :=
            Insert_not_contains ne d (by rw [gne]; exact hne)
          by_cases hse : (childSE b).contains d.point
          · have := ihse hgse (by rw [gse]; exact hse)
            simp [PointQuadTree.Insert, h, hlen, enw, ene, this]
          · have ese : se.Insert d = (se, false) :=
              Insert_not_contains se d (by rw [gse]; exact hse)
            by_cases hsw : (childSW b).contains d.point
            · have := ihsw hgsw (by rw [gsw]; exact hsw)
              simp [PointQuadTree.Insert, h, hlen, enw, ene, ese, this]
            · rcases hcov with hc | hc | hc | hc <;> simp_all

/-- A failed `Insert` leaves the node (and its whole subtree) unchanged. -/
theorem Insert_false_eq {T : Type} (t : PointQuadTree T) (d : Data_Node T)
    (h : (t.Insert d).2 = false) : t.Insert d = (t, false) := by
  induction t with
  | leaf b ps =>
    by_cases hc : b.contains d.point
    · by_cases hlen : ps.length < QT_NODE_MAX_CAPACITY
      · simp [PointQuadTree.Insert, hc, hlen] at h
      · rcases children_cover hc with hcov | hcov | hcov | hcov
        · simp [PointQuadTree.Insert, hc, hlen, freshInsert, hcov] at h
        · by_cases hnw : (childNW b).contains d.point
          · simp [PointQuadTree.Insert, hc, hlen, freshInsert, hnw] at h
          · simp [PointQuadTree.Insert, hc, hlen, freshInsert, hnw, hcov] at h
        · by_cases hnw : (childNW b).contains d.point
          · simp [PointQuadTree.Insert, hc, hlen, freshInsert, hnw] at h
          · by_cases hne : (childNE b).contains d.point
            · simp [PointQuadTree.Insert, hc, hlen, freshInsert, hnw, hne] at h
            · simp [PointQuadTree.Insert, hc, hlen, freshInsert, hnw, hne,
                hcov] at h
        · by_cases hnw : (childNW b).contains d.point
          · simp [PointQuadTree.Insert, hc, hlen, freshInsert, hnw] at h
          · by_cases hne : (childNE b).contains d.point
            · simp [PointQuadTree.Insert, hc, hlen, freshInsert, hnw, hne] at h
            · by_cases hse : (childSE b).contains d.point
              · simp [PointQuadTree.Insert, hc, hlen, freshInsert, hnw, hne,
                  hse] at h
              · simp [PointQuadTree.Insert, hc, hlen, freshInsert, hnw, hne,
                  hse, hcov] at h
    · exact Insert_not_contains _ _ hc
  | node b ps nw ne se sw ihnw ihne ihse ihsw =>
    by_cases hc : b.contains d.point
    · by_cases hlen : ps.length < QT_NODE_MAX_CAPACITY
      · simp [PointQuadTree.Insert, hc, hlen] at h
      · by_cases hnw : (nw.Insert d).2 = true
        · simp [PointQuadTree.Insert, hc, hlen, hnw] at h
        · have enw := ihnw (Bool.not_eq_true _ ▸ hnw)
          by_cases hne : (ne.Insert d).2 = true
          · simp [PointQuadTree.Insert, hc, hlen, hnw, hne] at h
          · have ene := ihne (Bool.not_eq_true _ ▸ hne)
            by_cases hse : (se.Insert d).2 = true
            · simp [PointQuadTree.Insert, hc, hlen, hnw, hne, hse] at h
            · have ese := ihse (Bool.not_eq_true _ ▸ hse)
              by_cases hsw : (sw.Insert d).2 = true
              · simp [PointQuadTree.Insert, hc, hlen, hnw, hne, hse, hsw] at h
              · have esw := ihsw (Bool.not_eq_true _ ▸ hsw)
                simp [PointQuadTree.Insert, hc, hlen, enw, ene, ese, esw]
    · exact Insert_not_contains _ _ hc

/-- Shape of a successful or failed insertion into an internal node with a
full bucket: the children are tried in the order northWest, northEast,
southEast, southWest; the first success wins and only that child changes. -/
theorem Insert_node_eq {T : Type} (b : Rect_AABB) (ps : List (Data_Node T))
    (nw ne se sw : PointQuadTree T) (d : Data_Node T)
    (hc : b.contains d.point) (hfull : ¬ ps.length < QT_NODE_MAX_CAPACITY) :
    (PointQuadTree.node b ps nw ne se sw).Insert d =
      if (nw.Insert d).2 = true then
        (PointQuadTree.node b ps (nw.Insert d).1 ne se sw, true)
      else if (ne.Insert d).2 = true then
        (PointQuadTree.node b ps nw (ne.Insert d).1 se sw, true)
      else if (se.Insert d).2 = true then
        (PointQuadTree.node b ps nw ne (se.Insert d).1 sw, true)
      else if (sw.Insert d).2 = true then
        (PointQuadTree.node b ps nw ne se (sw.Insert d).1, true)
      else (PointQuadTree.node b ps nw ne se sw, false) := by
  by_cases hnw : (nw.Insert d).2 = true
  · simp [PointQuadTree.Insert, hc, hfull, hnw]
  · have enw := Insert_false_eq nw d (Bool.not_eq_true _ ▸ hnw)
    by_cases hne : (ne.Insert d).2 = true
    · simp [PointQuadTree.Insert, hc, hfull, hnw, hne, enw]
    · have ene := Insert_false_eq ne d (Bool.not_eq_true _ ▸ hne)
      by_cases hse : (se.Insert d).2 = true
      · simp [PointQuadTree.Insert, hc, hfull, hnw, hne, hse, enw, ene]
      · have ese := Insert_false_eq se d (Bool.not_eq_true _ ▸ hse)
        by_cases hsw : (sw.Insert d).2 = true
        · simp [PointQuadTree.Insert, hc, hfull, hnw, hne, hse, hsw,
            enw, ene, ese]
        · have esw := Insert_false_eq sw d (Bool.not_eq_true _ ▸ hsw)
          simp [PointQuadTree.Insert, hc, hfull, hnw, hne, hse, hsw,
            enw, ene, ese, esw]

/-- Shape of an insertion into a full leaf: the node subdivides and the entry
is placed in the first child (northWest, northEast, southEast, southWest
order) whose region contains its point. -/
theorem Insert_leaf_full_eq {T : Type} (b : Rect_AABB)
    (ps : List (Data_Node T)) (d : Data_Node T)
    (hc : b.contains d.point) (hfull : ¬ ps.length < QT_NODE_MAX_CAPACITY) :
    (PointQuadTree.leaf b ps).Insert d =
      if (childNW b).contains d.point then
        (PointQuadTree.node b ps (.leaf (childNW b) [d]) (.leaf (childNE b) [])
          (.leaf (childSE b) []) (.leaf (childSW b) []), true)
      else if (childNE b).contains d.point then
        (PointQuadTree.node b ps (.leaf (childNW b) []) (.leaf (childNE b) [d])
          (.leaf (childSE b) []) (.leaf (childSW b) []), true)
      else if (childSE b).contains d.point then
        (PointQuadTree.node b ps (.leaf (childNW b) []) (.leaf (childNE b) [])
          (.leaf (childSE b) [d]) (.leaf (childSW b) []), true)
      else if (childSW b).contains d.point then
        (PointQuadTree.node b ps (.leaf (childNW b) []) (.leaf (childNE b) [])
          (.leaf (childSE b) []) (.leaf (childSW b) [d]), true)
      else
        (PointQuadTree.node b ps (.leaf (childNW b) []) (.leaf (childNE b) [])
          (.leaf (childSE b) []) (.leaf (childSW b) []), false) := by
  by_cases hnw : (childNW b).contains d.point
  · simp [PointQuadTree.Insert, freshInsert, hc, hfull, hnw]
  · by_cases hne : (childNE b).contains d.point
    · simp [PointQuadTree.Insert, freshInsert, hc, hfull, hnw, hne]
    · by_cases hse : (childSE b).contains d.point
      · simp [PointQuadTree.Insert, freshInsert, hc, hfull, hnw, hne, hse]
      · by_cases hsw : (childSW b).contains d.point
        · simp [PointQuadTree.Insert, freshInsert, hc, hfull, hnw, hne,
            hse, hsw]
        · simp [PointQuadTree.Insert, freshInsert, hc, hfull, hnw, hne,
            hse, hsw]

/-- `Insert` preserves the geometric invariant. -/
theorem GeomInv_Insert {T : Type} (t : PointQuadTree T) (d : Data_Node T)
    (hg : GeomInv t) : GeomInv (t.Insert d).1 := by
  induction t with
  | leaf b ps =>
    by_cases hc : b.contains d.point
    · by_cases hlen : ps.length < QT_NODE_MAX_CAPACITY
      · simp [PointQuadTree.Insert, hc, hlen, GeomInv]
      · rw [Insert_leaf_full_eq b ps d hc hlen]
        by_cases hnw : (childNW b).contains d.point
        · simp [hnw, GeomInv]
        · by_cases hne : (childNE b).contains d.point
          · simp [hnw, hne, GeomInv]
          · by_cases hse : (childSE b).contains d.point
            · simp [hnw, hne, hse, GeomInv]
            · by_cases hsw : (childSW b).contains d.point
              · simp [hnw, hne, hse, hsw, GeomInv]
              · simp [hnw, hne, hse, hsw, GeomInv]
    · rw [Insert_not_contains _ _ (by simpa using hc)]
      exact hg
  | node b ps nw ne se sw ihnw ihne ihse ihsw =>
    obtain ⟨gnw, gne, gse, gsw, hgnw, hgne, hgse, hgsw⟩ := hg
    by_cases hc : b.contains d.point
    · by_cases hlen : ps.length < QT_NODE_MAX_CAPACITY
      · simp only [PointQuadTree.Insert, hc, not_true_eq_false, if_false,
          if_neg, hlen, if_true, if_pos]
        exact ⟨gnw, gne, gse, gsw, hgnw, hgne, hgse, hgsw⟩
      · rw [Insert_node_eq b ps nw ne se sw d hc hlen]
        by_cases hnw : (nw.Insert d).2 = true
        · simpa [hnw, GeomInv, boundaries_Insert, gnw, gne, gse, gsw]
            using ⟨ihnw hgnw, hgne, hgse, hgsw⟩
        · by_cases hne : (ne.Insert d).2 = true
          · simpa [hnw, hne, GeomInv, boundaries_Insert, gnw, gne, gse, gsw]
              using ⟨hgnw, ihne hgne, hgse, hgsw⟩
          · by_cases hse : (se.Insert d).2 = true
            · simpa [hnw, hne, hse, GeomInv, boundaries_Insert,
                gnw, gne, gse, gsw] using ⟨hgnw, hgne, ihse hgse, hgsw⟩
            · by_cases hsw : (sw.Insert d).2 = true
              · simpa [hnw, hne, hse, hsw, GeomInv, boundaries_Insert,
                  gnw, gne, gse, gsw] using ⟨hgnw, hgne, hgse, ihsw hgsw⟩
              · simpa [hnw, hne, hse, hsw, GeomInv, gnw, gne, gse, gsw]
                  using ⟨hgnw, hgne, hgse, hgsw⟩
    · rw [Insert_not_contains _ _ (by simpa using hc)]
      exact ⟨gnw, gne, gse, gsw, hgnw, hgne, hgse, hgsw⟩

/-- A successful `Insert` adds exactly the new entry to the stored entries
(up to order). -/
theorem entries_Insert_perm {T : Type} (t : PointQuadTree T) (d : Data_Node T)
    (h : (t.Insert d).2 = true) :
    List.Perm (entries (t.Insert d).1) (d :: entries t) := by
  induction t with
  | leaf b ps =>
    by_cases hc : b.contains d.point
    · by_cases hlen : ps.length < QT_NODE_MAX_CAPACITY
      · simp [PointQuadTree.Insert, hc, hlen]
      · rw [Insert_leaf_full_eq b ps d hc hlen] at h ⊢
        by_cases hnw : (childNW b).contains d.point
        · simp [hnw]
        · by_cases hne : (childNE b).contains d.point
          · simp [hnw, hne]
          · by_cases hse : (childSE b).contains d.point
            · simp [hnw, hne, hse]
            · by_cases hsw : (childSW b).contains d.point
              · simp [hnw, hne, hse, hsw]
              · simp [hnw, hne, hse, hsw] at h
    · rw [Insert_not_contains _ _ (by simpa using hc)] at h
      simp at h
  | node b ps nw ne se sw ihnw ihne ihse ihsw =>
    by_cases hc : b.contains d.point
    · by_cases hlen : ps.length < QT_NODE_MAX_CAPACITY
      · simp only [PointQuadTree.Insert, hc, not_true_eq_false, if_false,
          if_neg, hlen, if_pos, entries_node]
        rw [← Multiset.coe_eq_coe]
        simp only [← Multiset.coe_add, ← Multiset.cons_coe,
          ← Multiset.singleton_add]
        abel
      · rw [Insert_node_eq b ps nw ne se sw d hc hlen] at h ⊢
        by_cases hnw : (nw.Insert d).2 = true
        · have ih := Multiset.coe_eq_coe.mpr (ihnw hnw)
          simp only [hnw, if_true, if_pos, entries_node]
          rw [← Multiset.coe_eq_coe]
          simp only [← Multiset.coe_add]
          rw [ih]
          simp only [← Multiset.cons_coe, ← Multiset.singleton_add,
            ← Multiset.coe_add]
          abel
        · by_cases hne : (ne.Insert d).2 = true
          · have ih := Multiset.coe_eq_coe.mpr (ihne hne)
            simp only [hnw, hne, if_true, if_pos, if_false, if_neg,
              Bool.false_eq_true, entries_node]
            rw [← Multiset.coe_eq_coe]
            simp only [← Multiset.coe_add]
            rw [ih]
            simp only [← Multiset.cons_coe, ← Multiset.singleton_add,
              ← Multiset.coe_add]
            abel
          · by_cases hse : (se.Insert d).2 = true
            · have ih := Multiset.coe_eq_coe.mpr (ihse hse)
              simp only [hnw, hne, hse, if_true, if_pos, if_false, if_neg,
                Bool.false_eq_true, entries_node]
              rw [← Multiset.coe_eq_coe]
              simp only [← Multiset.coe_add]
              rw [ih]
              simp only [← Multiset.cons_coe, ← Multiset.singleton_add,
                ← Multiset.coe_add]
              abel
            · by_cases hsw : (sw.Insert d).2 = true
              · have ih := Multiset.coe_eq_coe.mpr (ihsw hsw)
                simp only [hnw, hne, hse, hsw, if_true, if_pos, if_false,
                  if_neg, Bool.false_eq_true, entries_node]
                rw [← Multiset.coe_eq_coe]
                simp only [← Multiset.coe_add]
                rw [ih]
                simp only [← Multiset.cons_coe, ← Multiset.singleton_add,
                  ← Multiset.coe_add]
                abel
              · simp [hnw, hne, hse, hsw] at h
    · rw [Insert_not_contains _ _ (by simpa using hc)] at h
      simp at h

/-- `Insert` preserves the region invariant. -/
theorem WF_Insert {T : Type} (t : PointQuadTree T) (d : Data_Node T)
    (hw : WF t) : WF (t.Insert d).1 := by
  induction t with
  | leaf b ps =>
    by_cases hc : b.contains d.point
    · by_cases hlen : ps.length < QT_NODE_MAX_CAPACITY
      · simp only [PointQuadTree.Insert, hc, not_true_eq_false, if_false,
          if_neg, hlen, if_pos]
        intro e he
        rcases List.mem_append.mp he with he | he
        · exact hw e he
        · simp at he
          subst he
          exact hc
      · rw [Insert_leaf_full_eq b ps d hc hlen]
        by_cases hnw : (childNW b).contains d.point
        · simp only [hnw, if_pos, if_true]
          refine ⟨hw, ?_, ?_, ?_, ?_, ?_, ?_, ?_, ?_⟩ <;>
            simp_all [WF]
        · by_cases hne : (childNE b).contains d.point
          · simp only [hnw, hne, if_pos, if_true, if_neg, if_false]
            refine ⟨hw, ?_, ?_, ?_, ?_, ?_, ?_, ?_, ?_⟩ <;>
              simp_all [WF]
          · by_cases hse : (childSE b).contains d.point
            · simp only [hnw, hne, hse, if_pos, if_true, if_neg, if_false]
              refine ⟨hw, ?_, ?_, ?_, ?_, ?_, ?_, ?_, ?_⟩ <;>
                simp_all [WF]
            · by_cases hsw : (childSW b).contains d.point
              · simp only [hnw, hne, hse, hsw, if_pos, if_true, if_neg,
                  if_false]
                refine ⟨hw, ?_, ?_, ?_, ?_, ?_, ?_, ?_, ?_⟩ <;>
                  simp_all [WF]
              · simp only [hnw, hne, hse, hsw, if_neg, if_false]
                refine ⟨hw, ?_, ?_, ?_, ?_, ?_, ?_, ?_, ?_⟩ <;>
                  simp_all [WF]
    · rw [Insert_not_contains _ _ (by simpa using hc)]
      exact hw
  | node b ps nw ne se sw ihnw ihne ihse ihsw =>
    obtain ⟨hps, hanw, hane, hase, hasw, hwnw, hwne, hwse, hwsw⟩ := hw
    by_cases hc : b.contains d.point
    · by_cases hlen : ps.length < QT_NODE_MAX_CAPACITY
      · simp only [PointQuadTree.Insert, hc, not_true_eq_false, if_false,
          if_neg, hlen, if_pos]
        refine ⟨?_, hanw, hane, hase, hasw, hwnw, hwne, hwse, hwsw⟩
        intro e he
        rcases List.mem_append.mp he with he | he
        · exact hps e he
        · simp at he
          subst he
          exact hc
      · rw [Insert_node_eq b ps nw ne se sw d hc hlen]
        by_cases hnw : (nw.Insert d).2 = true
        · have hmem := fun e => (entries_Insert_perm nw d hnw).mem_iff (a := e)
          simp only [hnw, if_pos, if_true]
          refine ⟨hps, ?_, hane, hase, hasw, ihnw hwnw, hwne, hwse, hwsw⟩
          intro e he
          rcases (List.mem_cons).mp ((hmem e).mp he) with he | he
          · subst he
            exact hc
          · exact hanw e he
        · by_cases hne : (ne.Insert d).2 = true
          · have hmem := fun e => (entries_Insert_perm ne d hne).mem_iff (a := e)
            simp only [hnw, hne, if_pos, if_true, if_neg, if_false,
              Bool.false_eq_true]
            refine ⟨hps, hanw, ?_, hase, hasw, hwnw, ihne hwne, hwse, hwsw⟩
            intro e he
            rcases (List.mem_cons).mp ((hmem e).mp he) with he | he
            · subst he
              exact hc
            · exact hane e he
          · by_cases hse : (se.Insert d).2 = true
            · have hmem := fun e => (entries_Insert_perm se d hse).mem_iff (a := e)
              simp only [hnw, hne, hse, if_pos, if_true, if_neg, if_false,
                Bool.false_eq_true]
              refine ⟨hps, hanw, hane, ?_, hasw, hwnw, hwne, ihse hwse, hwsw⟩
              intro e he
              rcases (List.mem_cons).mp ((hmem e).mp he) with he | he
              · subst he
                exact hc
              · exact hase e he
            · by_cases hsw : (sw.Insert d).2 = true
              · have hmem := fun e =>
                  (entries_Insert_perm sw d hsw).mem_iff (a := e)
                simp only [hnw, hne, hse, hsw, if_pos, if_true, if_neg,
                  if_false, Bool.false_eq_true]
                refine ⟨hps, hanw, hane, hase, ?_, hwnw, hwne, hwse, ihsw hwsw⟩
                intro e he
                rcases (List.mem_cons).mp ((hmem e).mp he) with he | he
                · subst he
                  exact hc
                · exact hasw e he
              · simp only [hnw, hne, hse, hsw, if_neg, if_false,
                  Bool.false_eq_true]
                exact ⟨hps, hanw, hane, hase, hasw, hwnw, hwne, hwse, hwsw⟩
    · rw [Insert_not_contains _ _ (by simpa using hc)]
      exact ⟨hps, hanw, hane, hase, hasw, hwnw, hwne, hwse, hwsw⟩

/-- `Insert` preserves the bucket invariant; in particular an internal node's
(full) bucket is never appended to. -/
theorem BucketInv_Insert {T : Type} (t : PointQuadTree T) (d : Data_Node T)
    (hb : BucketInv t) : BucketInv (t.Insert d).1 := by
  induction t with
  | leaf b ps =>
    by_cases hc : b.contains d.point
    · by_cases hlen : ps.length < QT_NODE_MAX_CAPACITY
      · simp only [PointQuadTree.Insert, hc, not_true_eq_false, if_false,
          if_neg, hlen, if_pos]
        simp only [BucketInv, List.length_append, List.length_singleton]
        omega
      · have hfour : ps.length = QT_NODE_MAX_CAPACITY := by
          simp only [BucketInv] at hb
          omega
        rw [Insert_leaf_full_eq b ps d hc hlen]
        by_cases hnw : (childNW b).contains d.point
        · simp [hnw, BucketInv, hfour, QT_NODE_MAX_CAPACITY]
        · by_cases hne : (childNE b).contains d.point
          · simp [hnw, hne, BucketInv, hfour, QT_NODE_MAX_CAPACITY]
          · by_cases hse : (childSE b).contains d.point
            · simp [hnw, hne, hse, BucketInv, hfour, QT_NODE_MAX_CAPACITY]
            · by_cases hsw : (childSW b).contains d.point
              · simp [hnw, hne, hse, hsw, BucketInv, hfour,
                  QT_NODE_MAX_CAPACITY]
              · simp [hnw, hne, hse, hsw, BucketInv, hfour,
                  QT_NODE_MAX_CAPACITY]
    · rw [Insert_not_contains _ _ (by simpa using hc)]
      exact hb
  | node b ps nw ne se sw ihnw ihne ihse ihsw =>
    obtain ⟨hfour, hbnw, hbne, hbse, hbsw⟩ := hb
    by_cases hc : b.contains d.point
    · have hlen : ¬ ps.length < QT_NODE_MAX_CAPACITY := by omega
      rw [Insert_node_eq b ps nw ne se sw d hc hlen]
      by_cases hnw : (nw.Insert d).2 = true
      · simpa [hnw, BucketInv, hfour] using ⟨ihnw hbnw, hbne, hbse, hbsw⟩
      · by_cases hne : (ne.Insert d).2 = true
        · simpa [hnw, hne, BucketInv, hfour]
            using ⟨hbnw, ihne hbne, hbse, hbsw⟩
        · by_cases hse : (se.Insert d).2 = true
          · simpa [hnw, hne, hse, BucketInv, hfour]
              using ⟨hbnw, hbne, ihse hbse, hbsw⟩
          · by_cases hsw : (sw.Insert d).2 = true
            · simpa [hnw, hne, hse, hsw, BucketInv, hfour]
                using ⟨hbnw, hbne, hbse, ihsw hbsw⟩
            · simpa [hnw, hne, hse, hsw, BucketInv, hfour]
                using ⟨hbnw, hbne, hbse, hbsw⟩
    · rw [Insert_not_contains _ _ (by simpa using hc)]
      exact ⟨hfour, hbnw, hbne, hbse, hbsw⟩

/-! ## Query lemmas -/

/-- The accumulating recursion equals the accumulator-free form. -/
theorem QueryRange_private_eq {T : Type} (t : PointQuadTree T)
    (range : Rect_AABB) (acc : List (Data_Node T)) :
    t.QueryRange_private_recursive range acc = acc ++ queryList t range := by
  induction t generalizing acc with
  | leaf b ps =>
    by_cases hI : b.Intersects_AABB range <;>
      simp [PointQuadTree.QueryRange_private_recursive, queryList, hI]
  | node b ps nw ne se sw ihnw ihne ihse ihsw =>
    by_cases hI : b.Intersects_AABB range
    · simp only [PointQuadTree.QueryRange_private_recursive, queryList, hI,
        not_true_eq_false, if_false, if_neg]
      rw [ihne, ihnw, ihse, ihsw]
      simp [List.append_assoc]
    · simp [PointQuadTree.QueryRange_private_recursive, queryList, hI]

/-- `QueryRange` in accumulator-free form. -/
theorem QueryRange_eq_queryList {T : Type} (t : PointQuadTree T)
    (range : Rect_AABB) : t.QueryRange range = queryList t range := by
  simp [PointQuadTree.QueryRange, QueryRange_private_eq]

/-- Soundness of the query without any invariant: everything returned is a
stored entry whose point lies in the query range. -/
theorem mem_queryList {T : Type} {t : PointQuadTree T} {range : Rect_AABB}
    {e : Data_Node T} (h : e ∈ queryList t range) :
    e ∈ entries t ∧ range.contains e.point := by
  induction t with
  | leaf b ps =>
    by_cases hI : b.Intersects_AABB range
    · simp only [queryList, hI, not_true_eq_false, if_false, if_neg,
        List.mem_filter, decide_eq_true_eq] at h
      simpa using h
    · simp [queryList, hI] at h
  | node b ps nw ne se sw ihnw ihne ihse ihsw =>
    by_cases hI : b.Intersects_AABB range
    · simp only [queryList, hI, not_true_eq_false, if_false, if_neg,
        List.mem_append, List.mem_filter, decide_eq_true_eq] at h
      simp only [entries_node, List.mem_append]
      rcases h with h | h | h | h | h
      · exact ⟨Or.inl h.1, h.2⟩
      · exact ⟨Or.inr (Or.inr (Or.inl (ihne h).1)), (ihne h).2⟩
      · exact ⟨Or.inr (Or.inl (ihnw h).1), (ihnw h).2⟩
      · exact ⟨Or.inr (Or.inr (Or.inr (Or.inl (ihse h).1))), (ihse h).2⟩
      · exact ⟨Or.inr (Or.inr (Or.inr (Or.inr (ihsw h).1))), (ihsw h).2⟩
    · simp [queryList, hI] at h

/-- The region invariant seen from the top of a subtree. -/
theorem WF_entries_contains {T : Type} {t : PointQuadTree T} (hw : WF t) :
    ∀ e ∈ entries t, t.boundaries.contains e.point := by
  cases t with
  | leaf b ps => exact hw
  | node b ps nw ne se sw =>
    obtain ⟨hps, hanw, hane, hase, hasw, _, _, _, _⟩ := hw
    intro e he
    simp only [entries_node, List.mem_append] at he
    rcases he with he | he | he | he | he
    · exact hps e he
    · exact hanw e he
    · exact hane e he
    · exact hase e he
    · exact hasw e he

/-- Pruning is sound: if a subtree's region misses the range, none of its
entries can match. -/
theorem filter_entries_nil {T : Type} {t : PointQuadTree T} {range : Rect_AABB}
    (hall : ∀ e ∈ entries t, t.boundaries.contains e.point)
    (hI : ¬ t.boundaries.Intersects_AABB range) :
    (entries t).filter (fun e => decide (range.contains e.point)) = [] := by
  rw [List.filter_eq_nil_iff]
  intro e he
  simp only [decide_eq_true_eq]
  intro hr
  exact hI (intersects_of_mem_mem (hall e he) hr)

/-- On a well-formed subtree the query collects exactly the stored entries
matching the range (up to order). -/
theorem queryList_perm_filter {T : Type} (t : PointQuadTree T)
    (range : Rect_AABB) (hw : WF t) :
    List.Perm (queryList t range)
      ((entries t).filter (fun e => decide (range.contains e.point))) := by
  induction t with
  | leaf b ps =>
    by_cases hI : b.Intersects_AABB range
    · simp [queryList, hI]
    · rw [filter_entries_nil (t := PointQuadTree.leaf b ps)
        (WF_entries_contains hw) hI]
      simp [queryList, hI]
  | node b ps nw ne se sw ihnw ihne ihse ihsw =>
    obtain ⟨hps, hanw, hane, hase, hasw, hwnw, hwne, hwse, hwsw⟩ := hw
    by_cases hI : b.Intersects_AABB range
    · simp only [queryList, hI, not_true_eq_false, if_false, if_neg,
        entries_node, List.filter_append]
      rw [← Multiset.coe_eq_coe]
      simp only [← Multiset.coe_add]
      rw [Multiset.coe_eq_coe.mpr (ihne hwne),
        Multiset.coe_eq_coe.mpr (ihnw hwnw),
        Multiset.coe_eq_coe.mpr (ihse hwse),
        Multiset.coe_eq_coe.mpr (ihsw hwsw)]
      abel
    · rw [filter_entries_nil (t := PointQuadTree.node b ps nw ne se sw)
        (WF_entries_contains
          ⟨hps, hanw, hane, hase, hasw, hwnw, hwne, hwse, hwsw⟩) hI]
      simp [queryList, hI]

/-! ## Built trees -/

/-- Folding `Insert` preserves the region invariant. -/
theorem foldl_Insert_WF {T : Type} (ds : List (Data_Node T))
    (t : PointQuadTree T) (h : WF t) :
    WF (ds.foldl (fun t d => (t.Insert d).1) t) := by
  induction ds generalizing t with
  | nil => simpa using h
  | cons d ds ih => simpa using ih _ (WF_Insert t d h)

/-- Folding `Insert` preserves the geometric invariant. -/
theorem foldl_Insert_GeomInv {T : Type} (ds : List (Data_Node T))
    (t : PointQuadTree T) (h : GeomInv t) :
    GeomInv (ds.foldl (fun t d => (t.Insert d).1) t) := by
  induction ds generalizing t with
  | nil => simpa using h
  | cons d ds ih => simpa using ih _ (GeomInv_Insert t d h)

/-- Folding `Insert` preserves the bucket invariant. -/
theorem foldl_Insert_BucketInv {T : Type} (ds : List (Data_Node T))
    (t : PointQuadTree T) (h : BucketInv t) :
    BucketInv (ds.foldl (fun t d => (t.Insert d).1) t) := by
  induction ds generalizing t with
  | nil => simpa using h
  | cons d ds ih => simpa using ih _ (BucketInv_Insert t d h)

/-- Folding `Insert` never changes the root's region. -/
theorem foldl_Insert_boundaries {T : Type} (ds : List (Data_Node T))
    (t : PointQuadTree T) :
    (ds.foldl (fun t d => (t.Insert d).1) t).boundaries = t.boundaries := by
  induction ds generalizing t with
  | nil => simp
  | cons d ds ih => simpa [boundaries_Insert] using ih (t.Insert d).1

/-- Folding `Insert` over entries that all lie in the tree's region adds
exactly those entries (up to order). -/
theorem entries_foldl_perm {T : Type} (ds : List (Data_Node T))
    (t : PointQuadTree T) (hg : GeomInv t)
    (hall : ∀ d ∈ ds, t.boundaries.contains d.point) :
    List.Perm (entries (ds.foldl (fun t d => (t.Insert d).1) t))
      (ds ++ entries t) := by
  induction ds generalizing t with
  | nil => simp
  | cons d ds ih =>
    have hsucc : (t.Insert d).2 = true :=
      Insert_true_of_contains t d hg (hall d (by simp))
    have h1 := entries_Insert_perm t d hsucc
    have h2 := ih (t.Insert d).1 (GeomInv_Insert t d hg)
      (fun e he => by
        rw [boundaries_Insert]
        exact hall e (by simp [he]))
    have h3 : List.foldl (fun t d => (t.Insert d).1) t (d :: ds) =
        ds.foldl (fun t d => (t.Insert d).1) (t.Insert d).1 := by
      simp [List.foldl]
    rw [h3]
    refine h2.trans ?_
    refine (List.Perm.append_left ds h1).trans ?_
    simp

/-- The entries of a tree built from a fresh root are exactly the inserted
entries (up to order), provided they all lie in the root's region. -/
theorem entries_buildTree_perm {T : Type} (R : Rect_AABB)
    (ds : List (Data_Node T)) (hall : ∀ d ∈ ds, R.contains d.point) :
    List.Perm (entries (buildTree R ds)) ds := by
  have h := entries_foldl_perm ds (PointQuadTree.leaf R []) trivial
    (by simpa using hall)
  simpa [buildTree] using h

/-! ## Claim theorems -/

/-- C1: for every sequence of entries each successfully inserted at the root
(each point within the root's region) and every query region `Q`,
`RangeQuery(Q)` on the resulting tree returns exactly the subset of those
entries whose points lie inside `Q` — no more, no fewer, as an
order-independent (permutation) equality. -/
theorem C1_rangeQuery_exact {T : Type} (R Q : Rect_AABB)
    (ds : List (Data_Node T)) (hall : ∀ d ∈ ds, R.contains d.point) :
    List.Perm ((buildTree R ds).QueryRange Q)
      (ds.filter (fun d => decide (Q.contains d.point))) := by
  have hw : WF (buildTree R ds) :=
    foldl_Insert_WF ds (PointQuadTree.leaf R [])
      (by intro e he; simp at he)
  rw [QueryRange_eq_queryList]
  refine (queryList_perm_filter _ Q hw).trans ?_
  exact List.Perm.filter _ (entries_buildTree_perm R ds hall)

/-- Witness for C1 at the spec's concrete scenario. -/
theorem C1_rangeQuery_exact_witness :
    List.Perm ((buildTree sampleRoot [dd 1, dd 2, dd 3, dd 4, dd 5]).QueryRange
        sampleQuery)
      ([dd 1, dd 2, dd 3, dd 4, dd 5].filter
        (fun d => decide (sampleQuery.contains d.point))) :=
  C1_rangeQuery_exact sampleRoot sampleQuery [dd 1, dd 2, dd 3, dd 4, dd 5]
    (by intro d hd; fin_cases hd <;> norm_num [sampleRoot, dd, Rect_AABB.contains])

/-- C3: for every tree and every entry whose point lies outside the node's
region, `Insert` returns `false` and leaves the tree completely unchanged
(so the entry count is unchanged and no children are created). -/
theorem C3_insert_outside_rejected {T : Type} (t : PointQuadTree T)
    (d : Data_Node T) (h : ¬ t.boundaries.contains d.point) :
    t.Insert d = (t, false) :=
  Insert_not_contains t d h

/-- Witness for C3: the point `(100, 100)` lies outside `sampleRoot`. -/
theorem C3_insert_outside_rejected_witness :
    (PointQuadTree.leaf sampleRoot ([] : List (Data_Node Nat))).Insert
        (dd 100) =
      (PointQuadTree.leaf sampleRoot [], false) :=
  C3_insert_outside_rejected (PointQuadTree.leaf sampleRoot []) (dd 100)
    (by norm_num [sampleRoot, dd, Rect_AABB.contains])

/-- C6: after any sequence of `Insert` calls on a fresh root, every node of
the tree satisfies the region invariant: each entry stored at the node or
any descendant lies inside that node's region (`WF` states this at the root
and recursively at every child). -/
theorem C6_region_invariant {T : Type} (R : Rect_AABB)
    (ds : List (Data_Node T)) : WF (buildTree R ds) :=
  foldl_Insert_WF ds (PointQuadTree.leaf R [])
    (by intro e he; simp at he)

/-- C8: `RangeQuery` never mutates the tree: the state-threaded reading of
the recursion returns the tree unchanged together with the same result list
the plain recursion produces, for every tree, range and accumulator. -/
theorem C8_query_no_mutation {T : Type} (t : PointQuadTree T)
    (range : Rect_AABB) (acc : List (Data_Node T)) :
    t.QueryRange_state range acc =
      (t, t.QueryRange_private_recursive range acc) := by
  induction t generalizing acc with
  | leaf b ps =>
    by_cases hI : b.Intersects_AABB range <;>
      simp [PointQuadTree.QueryRange_state,
        PointQuadTree.QueryRange_private_recursive, hI]
  | node b ps nw ne se sw ihnw ihne ihse ihsw =>
    by_cases hI : b.Intersects_AABB range <;>
      simp [PointQuadTree.QueryRange_state,
        PointQuadTree.QueryRange_private_recursive, hI, ihnw, ihne, ihse, ihsw]

/-- C10: the final fallback `return false` of `Insert` is unreachable for a
point inside the node's region: the four child regions computed by
`Subdivide` jointly cover the node's region, and on any tree whose children
were built by `Subdivide` the insertion returns `true`. -/
theorem C10_fallback_unreachable {T : Type} (t : PointQuadTree T)
    (d : Data_Node T) (hg : GeomInv t) (hc : t.boundaries.contains d.point) :
    ((childNW t.boundaries).contains d.point ∨
      (childNE t.boundaries).contains d.point ∨
      (childSE t.boundaries).contains d.point ∨
      (childSW t.boundaries).contains d.point) ∧
    (t.Insert d).2 = true :=
  ⟨children_cover hc, Insert_true_of_contains t d hg hc⟩

/-- Witness for C10 on a concrete internal node. -/
theorem C10_fallback_unreachable_witness :
    ((childNW sampleInternal.boundaries).contains (dd 2).point ∨
      (childNE sampleInternal.boundaries).contains (dd 2).point ∨
      (childSE sampleInternal.boundaries).contains (dd 2).point ∨
      (childSW sampleInternal.boundaries).contains (dd 2).point) ∧
    (sampleInternal.Insert (dd 2)).2 = true :=
  C10_fallback_unreachable sampleInternal (dd 2)
    (by simp [sampleInternal, GeomInv])
    (by norm_num [sampleInternal, sampleRoot, dd, Rect_AABB.contains])

/-- C5: every node of a built tree is either a leaf with bucket size at most
`QT_NODE_MAX_CAPACITY` or an internal node whose bucket holds exactly the
`QT_NODE_MAX_CAPACITY` entries accepted before its split; and once a node
has split, no `Insert` ever appends another entry to that node's own bucket. -/
theorem C5_bucket_discipline {T : Type} (R : Rect_AABB)
    (ds : List (Data_Node T)) :
    BucketInv (buildTree R ds) ∧
    ∀ (b : Rect_AABB) (ps : List (Data_Node T)) (nw ne se sw : PointQuadTree T)
      (d : Data_Node T),
      BucketInv (PointQuadTree.node b ps nw ne se sw) →
      ((PointQuadTree.node b ps nw ne se sw).Insert d).1.points = ps := by
  constructor
  · exact foldl_Insert_BucketInv ds (PointQuadTree.leaf R [])
      (by simp [BucketInv])
  · intro b ps nw ne se sw d hb
    obtain ⟨hfour, -, -, -, -⟩ := hb
    by_cases hc : b.contains d.point
    · have hlen : ¬ ps.length < QT_NODE_MAX_CAPACITY := by omega
      rw [Insert_node_eq b ps nw ne se sw d hc hlen]
      by_cases hnw : (nw.Insert d).2 = true
      · simp [hnw]
      · by_cases hne : (ne.Insert d).2 = true
        · simp [hnw, hne]
        · by_cases hse : (se.Insert d).2 = true
          · simp [hnw, hne, hse]
          · by_cases hsw : (sw.Insert d).2 = true
            · simp [hnw, hne, hse, hsw]
            · simp [hnw, hne, hse, hsw]
    · rw [Insert_not_contains _ _ (by simpa using hc)]
      rfl

/-- Witness for C5: a one-entry build, and an insertion into a concrete
full internal node that leaves its bucket untouched. -/
theorem C5_bucket_discipline_witness :
    BucketInv (buildTree sampleRoot [dd 1]) ∧
    ((PointQuadTree.node sampleRoot [dd 1, dd 2, dd 3, dd 4]
        (.leaf (childNW sampleRoot) []) (.leaf (childNE sampleRoot) [])
        (.leaf (childSE sampleRoot) [])
        (.leaf (childSW sampleRoot) [])).Insert (dd 5)).1.points =
      [dd 1, dd 2, dd 3, dd 4] :=
  ⟨(C5_bucket_discipline sampleRoot [dd 1]).1,
    (C5_bucket_discipline sampleRoot [dd 1]).2 sampleRoot
      [dd 1, dd 2, dd 3, dd 4] (.leaf (childNW sampleRoot) [])
      (.leaf (childNE sampleRoot) []) (.leaf (childSE sampleRoot) [])
      (.leaf (childSW sampleRoot) []) (dd 5)
      (by simp [BucketInv, QT_NODE_MAX_CAPACITY])⟩

/-- C7: when `Insert` is called on an internal node (with the full bucket
every internal node of a built tree has) and a point inside that node's
region, it tries the four children in the fixed order northWest, northEast,
southEast, southWest, delegates to the first child whose region contains the
point, and returns that child's result. -/
theorem C7_internal_delegation {T : Type} (b : Rect_AABB)
    (ps : List (Data_Node T)) (nw ne se sw : PointQuadTree T)
    (d : Data_Node T) (hg : GeomInv (PointQuadTree.node b ps nw ne se sw))
    (hfull : ¬ ps.length < QT_NODE_MAX_CAPACITY)
    (hc : b.contains d.point) :
    (PointQuadTree.node b ps nw ne se sw).Insert d =
      if nw.boundaries.contains d.point then
        (PointQuadTree.node b ps (nw.Insert d).1 ne se sw, (nw.Insert d).2)
      else if ne.boundaries.contains d.point then
        (PointQuadTree.node b ps nw (ne.Insert d).1 se sw, (ne.Insert d).2)
      else if se.boundaries.contains d.point then
        (PointQuadTree.node b ps nw ne (se.Insert d).1 sw, (se.Insert d).2)
      else if sw.boundaries.contains d.point then
        (PointQuadTree.node b ps nw ne se (sw.Insert d).1, (sw.Insert d).2)
      else (PointQuadTree.node b ps nw ne se sw, false) := by
  obtain ⟨gnw, gne, gse, gsw, hgnw, hgne, hgse, hgsw⟩ := hg
  rw [Insert_node_eq b ps nw ne se sw d hc hfull]
  by_cases hnw : nw.boundaries.contains d.point
  · have hs := Insert_true_of_contains nw d hgnw hnw
    simp [hs, hnw]
  · have e1 : nw.Insert d = (nw, false) := Insert_not_contains nw d hnw
    by_cases hne : ne.boundaries.contains d.point
    · have hs := Insert_true_of_contains ne d hgne hne
      simp [e1, hs, hnw, hne]
    · have e2 : ne.Insert d = (ne, false) := Insert_not_contains ne d hne
      by_cases hse : se.boundaries.contains d.point
      · have hs := Insert_true_of_contains se d hgse hse
        simp [e1, e2, hs, hnw, hne, hse]
      · have e3 : se.Insert d = (se, false) := Insert_not_contains se d hse
        by_cases hsw : sw.boundaries.contains d.point
        · have hs := Insert_true_of_contains sw d hgsw hsw
          simp [e1, e2, e3, hs, hnw, hne, hse, hsw]
        · have e4 : sw.Insert d = (sw, false) := Insert_not_contains sw d hsw
          simp [e1, e2, e3, e4, hnw, hne, hse, hsw]

/-- Witness for C7 on a concrete internal node: `(2, 2)` is delegated. -/
theorem C7_internal_delegation_witness :
    (PointQuadTree.node sampleRoot [dd 1, dd 2, dd 3, dd 4]
        (PointQuadTree.leaf (childNW sampleRoot) [])
        (PointQuadTree.leaf (childNE sampleRoot) [])
        (PointQuadTree.leaf (childSE sampleRoot) [])
        (PointQuadTree.leaf (childSW sampleRoot) [])).Insert (dd 2) =
      if (PointQuadTree.leaf (childNW sampleRoot)
            ([] : List (Data_Node Nat))).boundaries.contains (dd 2).point then
        (PointQuadTree.node sampleRoot [dd 1, dd 2, dd 3, dd 4]
          ((PointQuadTree.leaf (childNW sampleRoot) []).Insert (dd 2)).1
          (PointQuadTree.leaf (childNE sampleRoot) [])
          (PointQuadTree.leaf (childSE sampleRoot) [])
          (PointQuadTree.leaf (childSW sampleRoot) []),
          ((PointQuadTree.leaf (childNW sampleRoot) []).Insert (dd 2)).2)
      else if (PointQuadTree.leaf (childNE sampleRoot)
            ([] : List (Data_Node Nat))).boundaries.contains (dd 2).point then
        (PointQuadTree.node sampleRoot [dd 1, dd 2, dd 3, dd 4]
          (PointQuadTree.leaf (childNW sampleRoot) [])
          ((PointQuadTree.leaf (childNE sampleRoot) []).Insert (dd 2)).1
          (PointQuadTree.leaf (childSE sampleRoot) [])
          (PointQuadTree.leaf (childSW sampleRoot) []),
          ((PointQuadTree.leaf (childNE sampleRoot) []).Insert (dd 2)).2)
      else if (PointQuadTree.leaf (childSE sampleRoot)
            ([] : List (Data_Node Nat))).boundaries.contains (dd 2).point then
        (PointQuadTree.node sampleRoot [dd 1, dd 2, dd 3, dd 4]
          (PointQuadTree.leaf (childNW sampleRoot) [])
          (PointQuadTree.leaf (childNE sampleRoot) [])
          ((PointQuadTree.leaf (childSE sampleRoot) []).Insert (dd 2)).1
          (PointQuadTree.leaf (childSW sampleRoot) []),
          ((PointQuadTree.leaf (childSE sampleRoot) []).Insert (dd 2)).2)
      else if (PointQuadTree.leaf (childSW sampleRoot)
            ([] : List (Data_Node Nat))).boundaries.contains (dd 2).point then
        (PointQuadTree.node sampleRoot [dd 1, dd 2, dd 3, dd 4]
          (PointQuadTree.leaf (childNW sampleRoot) [])
          (PointQuadTree.leaf (childNE sampleRoot) [])
          (PointQuadTree.leaf (childSE sampleRoot) [])
          ((PointQuadTree.leaf (childSW sampleRoot) []).Insert (dd 2)).1,
          ((PointQuadTree.leaf (childSW sampleRoot) []).Insert (dd 2)).2)
      else (PointQuadTree.node sampleRoot [dd 1, dd 2, dd 3, dd 4]
        (PointQuadTree.leaf (childNW sampleRoot) [])
        (PointQuadTree.leaf (childNE sampleRoot) [])
        (PointQuadTree.leaf (childSE sampleRoot) [])
        (PointQuadTree.leaf (childSW sampleRoot) []), false) :=
  C7_internal_delegation sampleRoot [dd 1, dd 2, dd 3, dd 4]
    (PointQuadTree.leaf (childNW sampleRoot) [])
    (PointQuadTree.leaf (childNE sampleRoot) [])
    (PointQuadTree.leaf (childSE sampleRoot) [])
    (PointQuadTree.leaf (childSW sampleRoot) []) (dd 2)
    (by simp [GeomInv]) (by norm_num [QT_NODE_MAX_CAPACITY])
    (by norm_num [sampleRoot, dd, Rect_AABB.contains])

/-- C2 (refuted — code bug in `Subdivide`): the source sets
`children_size = boundaries.halfDimension` without halving it, so for the
parent region centered at `(0, 0)` with half-extents `(10, 10)` the children
have half-extents `(10, 10)` (not the claimed `(5, 5)`) and centers at
`(±10, ±10)` (not `(±5, ±5)`): the north-east child even contains
`(15, 15)`, which is outside the parent, and the point `(0, 5)` inside the
parent lies in two child regions, so the children neither stay inside the
parent nor tile it with every parent point in exactly one child. -/
theorem C2_subdivide_code_bug :
    PointQuadTree.Subdivide sampleRoot ([] : List (Data_Node Nat)) =
      PointQuadTree.node sampleRoot [] (.leaf (childNW sampleRoot) [])
        (.leaf (childNE sampleRoot) []) (.leaf (childSE sampleRoot) [])
        (.leaf (childSW sampleRoot) []) ∧
    (childNE sampleRoot).halfDimension = sampleRoot.halfDimension ∧
    (childNE sampleRoot).halfDimension ≠ { x := 5, y := 5 } ∧
    (childNE sampleRoot).centerPoint = { x := 10, y := 10 } ∧
    (childNE sampleRoot).contains { x := 15, y := 15 } ∧
    ¬ sampleRoot.contains { x := 15, y := 15 } ∧
    sampleRoot.contains { x := 0, y := 5 } ∧
    (childNW sampleRoot).contains { x := 0, y := 5 } ∧
    (childNE sampleRoot).contains { x := 0, y := 5 } := by
  refine ⟨rfl, rfl, ?_, ?_, ?_, ?_, ?_, ?_, ?_⟩ <;>
    norm_num [childNE, childNW, sampleRoot, Rect_AABB.contains,
      Vector2.mk.injEq]

/-- C9 (counterexample to the claim as stated): a degenerate zero-area query
region centered at a stored point returns that entry, not an empty result
(the modelled `contains` is inclusive on both boundaries). -/
theorem C9_zero_area_counterexample :
    (buildTree sampleRoot [dd 1]).QueryRange zeroQuery = [dd 1] ∧
    (buildTree sampleRoot [dd 1]).QueryRange zeroQuery ≠ [] := by
  have h : (buildTree sampleRoot [dd 1]).QueryRange zeroQuery = [dd 1] := by
    norm_num [buildTree, PointQuadTree.Insert, PointQuadTree.QueryRange,
      PointQuadTree.QueryRange_private_recursive, sampleRoot, dd, zeroQuery,
      Rect_AABB.contains, Rect_AABB.Intersects_AABB, QT_NODE_MAX_CAPACITY]
  exact ⟨h, by simp [h]⟩

/-- C9 (amended): `RangeQuery` has no failure path: every query yields a
valid list; a query region disjoint from the node's region yields the empty
list; any query region containing no stored entry's point yields the empty
list; and a degenerate zero-area region returns only entries lying exactly
at its center point — on a well-formed tree (as every tree the code builds
is, see `WF_Insert` and `foldl_Insert_WF`) it returns exactly the stored
entries located at its center, up to order. -/
theorem C9_query_total_amended {T : Type} (t : PointQuadTree T)
    (Q : Rect_AABB) :
    (¬ t.boundaries.Intersects_AABB Q → t.QueryRange Q = []) ∧
    (Q.halfDimension = { x := 0, y := 0 } →
      ∀ e ∈ t.QueryRange Q, e.point = Q.centerPoint) ∧
    ((∀ e ∈ entries t, ¬ Q.contains e.point) → t.QueryRange Q = []) ∧
    (WF t → Q.halfDimension = { x := 0, y := 0 } →
      List.Perm (t.QueryRange Q)
        ((entries t).filter (fun e => decide (e.point = Q.centerPoint)))) := by
  refine ⟨?_, ?_, ?_, ?_⟩
  · intro h
    rw [QueryRange_eq_queryList]
    cases t <;> simp_all [queryList]
  · intro hQ e he
    rw [QueryRange_eq_queryList] at he
    obtain ⟨-, hcont⟩ := mem_queryList he
    obtain ⟨⟨qcx, qcy⟩, qhx, qhy⟩ := Q
    simp only [Vector2.mk.injEq] at hQ
    obtain ⟨rfl, rfl⟩ := hQ
    obtain ⟨h1, h2, h3, h4⟩ := hcont
    simp only [Rect_AABB.contains] at h1 h2 h3 h4
    obtain ⟨⟨ex, ey⟩, pay⟩ := e
    simp only [Vector2.mk.injEq]
    constructor <;> simp_all <;> linarith
  · intro h
    rw [QueryRange_eq_queryList]
    rcases hq : queryList t Q with - | ⟨e, rest⟩
    · rfl
    · exfalso
      have he : e ∈ queryList t Q := by
        rw [hq]
        simp
      obtain ⟨hent, hcont⟩ := mem_queryList he
      exact h e hent hcont
  · intro hw hQ
    obtain ⟨⟨qcx, qcy⟩, qhx, qhy⟩ := Q
    simp only [Vector2.mk.injEq] at hQ
    obtain ⟨rfl, rfl⟩ := hQ
    rw [QueryRange_eq_queryList]
    refine (queryList_perm_filter t _ hw).trans ?_
    have hfc : ∀ e ∈ entries t,
        decide (Rect_AABB.contains
            { centerPoint := { x := qcx, y := qcy },
              halfDimension := { x := 0, y := 0 } } e.point) =
          decide (e.point = Vector2.mk qcx qcy) := by
      intro e he
      rw [decide_eq_decide]
      obtain ⟨⟨ex, ey⟩, pay⟩ := e
      simp only [Rect_AABB.contains, Vector2.mk.injEq]
      constructor
      · rintro ⟨h1, h2, h3, h4⟩
        constructor <;> linarith
      · rintro ⟨rfl, rfl⟩
        norm_num
    rw [List.filter_congr hfc]

/-- Witness for the amended C9 on concrete trees and queries. -/
theorem C9_query_total_amended_witness :
    (buildTree sampleRoot [dd 1]).QueryRange farQuery = [] ∧
    (∀ e ∈ (buildTree sampleRoot [dd 1]).QueryRange zeroQuery,
      e.point = zeroQuery.centerPoint) ∧
    (buildTree sampleRoot [dd 3]).QueryRange zeroQuery = [] ∧
    List.Perm ((buildTree sampleRoot [dd 1]).QueryRange zeroQuery)
      ((entries (buildTree sampleRoot [dd 1])).filter
        (fun e => decide (e.point = zeroQuery.centerPoint))) :=
  ⟨(C9_query_total_amended (buildTree sampleRoot [dd 1]) farQuery).1
      (by norm_num [buildTree, PointQuadTree.Insert, PointQuadTree.boundaries,
        sampleRoot, dd, farQuery, Rect_AABB.contains, Rect_AABB.Intersects_AABB,
        QT_NODE_MAX_CAPACITY]),
    (C9_query_total_amended (buildTree sampleRoot [dd 1]) zeroQuery).2.1 rfl,
    (C9_query_total_amended (buildTree sampleRoot [dd 3]) zeroQuery).2.2.1
      (by norm_num [buildTree, PointQuadTree.Insert, sampleRoot, dd, zeroQuery,
        Rect_AABB.contains, QT_NODE_MAX_CAPACITY]),
    (C9_query_total_amended (buildTree sampleRoot [dd 1]) zeroQuery).2.2.2
      (by norm_num [buildTree, PointQuadTree.Insert, WF, sampleRoot, dd,
        Rect_AABB.contains, QT_NODE_MAX_CAPACITY]) rfl⟩

/-- C4: inserting `QT_NODE_MAX_CAPACITY + 1` points (all inside the root
region) into a fresh root causes exactly one split: the root becomes
internal with four leaf children, the first `QT_NODE_MAX_CAPACITY` entries
stay in the root's own bucket, a query covering the whole region returns all
five entries, and the fifth entry is stored in (and retrievable by a query
from) the first child whose region contains its point. -/
theorem C4_split_trigger {T : Type} (R : Rect_AABB)
    (d0 d1 d2 d3 d4 : Data_Node T)
    (h0 : R.contains d0.point) (h1 : R.contains d1.point)
    (h2 : R.contains d2.point) (h3 : R.contains d3.point)
    (h4 : R.contains d4.point) :
    ∃ lNW lNE lSE lSW : List (Data_Node T),
      buildTree R [d0, d1, d2, d3, d4] =
        PointQuadTree.node R [d0, d1, d2, d3]
          (PointQuadTree.leaf (childNW R) lNW)
          (PointQuadTree.leaf (childNE R) lNE)
          (PointQuadTree.leaf (childSE R) lSE)
          (PointQuadTree.leaf (childSW R) lSW) ∧
      lNW ++ (lNE ++ (lSE ++ lSW)) = [d4] ∧
      List.Perm ((buildTree R [d0, d1, d2, d3, d4]).QueryRange R)
        [d0, d1, d2, d3, d4] ∧
      ((lNW = [d4] ∧ (childNW R).contains d4.point ∧
          (PointQuadTree.leaf (childNW R) lNW).QueryRange R = [d4]) ∨
       (lNE = [d4] ∧ (childNE R).contains d4.point ∧
          (PointQuadTree.leaf (childNE R) lNE).QueryRange R = [d4]) ∨
       (lSE = [d4] ∧ (childSE R).contains d4.point ∧
          (PointQuadTree.leaf (childSE R) lSE).QueryRange R = [d4]) ∨
       (lSW = [d4] ∧ (childSW R).contains d4.point ∧
          (PointQuadTree.leaf (childSW R) lSW).QueryRange R = [d4])) := by
  have hxy := half_nonneg_of_contains h0
  have hself := self_intersects hxy.1 hxy.2
  obtain ⟨iNW, iNE, iSE, iSW⟩ := children_intersect_parent hxy.1 hxy.2
  have s0 : (PointQuadTree.leaf R ([] : List (Data_Node T))).Insert d0 =
      (.leaf R [d0], true) := by
    norm_num [PointQuadTree.Insert, h0, QT_NODE_MAX_CAPACITY]
  have s1 : (PointQuadTree.leaf R [d0]).Insert d1 =
      (.leaf R [d0, d1], true) := by
    norm_num [PointQuadTree.Insert, h1, QT_NODE_MAX_CAPACITY]
  have s2 : (PointQuadTree.leaf R [d0, d1]).Insert d2 =
      (.leaf R [d0, d1, d2], true) := by
    norm_num [PointQuadTree.Insert, h2, QT_NODE_MAX_CAPACITY]
  have s3 : (PointQuadTree.leaf R [d0, d1, d2]).Insert d3 =
      (.leaf R [d0, d1, d2, d3], true) := by
    norm_num [PointQuadTree.Insert, h3, QT_NODE_MAX_CAPACITY]
  have hb : buildTree R [d0, d1, d2, d3, d4] =
      ((PointQuadTree.leaf R [d0, d1, d2, d3]).Insert d4).1 := by
    simp [buildTree, List.foldl, s0, s1, s2, s3]
  rw [hb, Insert_leaf_full_eq R [d0, d1, d2, d3] d4 h4
    (by norm_num [QT_NODE_MAX_CAPACITY])]
  by_cases hnw : (childNW R).contains d4.point
  · simp only [hnw, if_true, if_pos]
    refine ⟨[d4], [], [], [], rfl, rfl, ?_, Or.inl ⟨rfl, trivial, ?_⟩⟩
    · rw [QueryRange_eq_queryList]
      simp [queryList, iNW, iNE, iSE, iSW, hself, h0, h1, h2, h3, h4]
    · rw [QueryRange_eq_queryList]
      simp [queryList, iNW, h4]
  · by_cases hne : (childNE R).contains d4.point
    · simp only [hnw, hne, if_true, if_pos, if_false, if_neg]
      refine ⟨[], [d4], [], [], rfl, rfl, ?_,
        Or.inr (Or.inl ⟨rfl, trivial, ?_⟩)⟩
      · rw [QueryRange_eq_queryList]
        simp [queryList, iNW, iNE, iSE, iSW, hself, h0, h1, h2, h3, h4]
      · rw [QueryRange_eq_queryList]
        simp [queryList, iNE, h4]
    · by_cases hse : (childSE R).contains d4.point
      · simp only [hnw, hne, hse, if_true, if_pos, if_false, if_neg]
        refine ⟨[], [], [d4], [], rfl, rfl, ?_,
          Or.inr (Or.inr (Or.inl ⟨rfl, trivial, ?_⟩))⟩
        · rw [QueryRange_eq_queryList]
          simp [queryList, iNW, iNE, iSE, iSW, hself, h0, h1, h2, h3, h4]
        · rw [QueryRange_eq_queryList]
          simp [queryList, iSE, h4]
      · by_cases hsw : (childSW R).contains d4.point
        · simp only [hnw, hne, hse, hsw, if_true, if_pos, if_false, if_neg]
          refine ⟨[], [], [], [d4], rfl, rfl, ?_,
            Or.inr (Or.inr (Or.inr ⟨rfl, trivial, ?_⟩))⟩
          · rw [QueryRange_eq_queryList]
            simp [queryList, iNW, iNE, iSE, iSW, hself, h0, h1, h2, h3, h4]
          · rw [QueryRange_eq_queryList]
            simp [queryList, iSW, h4]
        · rcases children_cover h4 with hc | hc | hc | hc
          · exact absurd hc hnw
          · exact absurd hc hne
          · exact absurd hc hse
          · exact absurd hc hsw

/-- Witness for C4 at the spec's concrete scenario. -/
theorem C4_split_trigger_witness :
    ∃ lNW lNE lSE lSW : List (Data_Node Nat),
      buildTree sampleRoot [dd 1, dd 2, dd 3, dd 4, dd 5] =
        PointQuadTree.node sampleRoot [dd 1, dd 2, dd 3, dd 4]
          (PointQuadTree.leaf (childNW sampleRoot) lNW)
          (PointQuadTree.leaf (childNE sampleRoot) lNE)
          (PointQuadTree.leaf (childSE sampleRoot) lSE)
          (PointQuadTree.leaf (childSW sampleRoot) lSW) ∧
      lNW ++ (lNE ++ (lSE ++ lSW)) = [dd 5] ∧
      List.Perm ((buildTree sampleRoot
          [dd 1, dd 2, dd 3, dd 4, dd 5]).QueryRange sampleRoot)
        [dd 1, dd 2, dd 3, dd 4, dd 5] ∧
      ((lNW = [dd 5] ∧ (childNW sampleRoot).contains (dd 5).point ∧
          (PointQuadTree.leaf (childNW sampleRoot) lNW).QueryRange sampleRoot =
            [dd 5]) ∨
       (lNE = [dd 5] ∧ (childNE sampleRoot).contains (dd 5).point ∧
          (PointQuadTree.leaf (childNE sampleRoot) lNE).QueryRange sampleRoot =
            [dd 5]) ∨
       (lSE = [dd 5] ∧ (childSE sampleRoot).contains (dd 5).point ∧
          (PointQuadTree.leaf (childSE sampleRoot) lSE).QueryRange sampleRoot =
            [dd 5]) ∨
       (lSW = [dd 5] ∧ (childSW sampleRoot).contains (dd 5).point ∧
          (PointQuadTree.leaf (childSW sampleRoot) lSW).QueryRange sampleRoot =
            [dd 5])) :=
  C4_split_trigger sampleRoot (dd 1) (dd 2) (dd 3) (dd 4) (dd 5)
    (by norm_num [sampleRoot, dd, Rect_AABB.contains])
    (by norm_num [sampleRoot, dd, Rect_AABB.contains])
    (by norm_num [sampleRoot, dd, Rect_AABB.contains])
    (by norm_num [sampleRoot, dd, Rect_AABB.contains])
    (by norm_num [sampleRoot, dd, Rect_AABB.contains])
